import Mathlib

/-!
Verification of the component registry core (`component/core.py`).

The development shallowly embeds the parts of the code touched by the
claims:

* `ComponentGlobalRegistry.lookup` (registry query by collection / usage /
  model name), together with the `apply_on_models` normalization from
  `MetaComponent`;
* `WorkContext.__init__` / `WorkContext.work_on` (context propagation);
* `AbstractComponent._component_class_by_name`, `component_by_name` and
  `component` (the resolution engine);
* `AbstractComponent._build_component` (the composition builder).

Python values that may be `None`, a string or a list of strings
(`_inherit`, `_apply_on`) are embedded by `StrOrList`; optional strings by
`Option String`.  Dynamically created classes are embedded as records, and
the Python-level sharing of mutable `ComponentClass` objects is embedded by
referring to composed classes by registry name (`Base.comp`).
-/

namespace ComponentCore

/-- A Python value that is `None`, a single string, or a list of strings
(used for `_inherit` and `_apply_on`). -/
inductive StrOrList where
  | nil : StrOrList
  | str (s : String) : StrOrList
  | lst (l : List String) : StrOrList
deriving DecidableEq, BEq

/-- Normalization of `_inherit` at the top of `_build_component`:
a single string becomes a one-element list, `None` becomes the empty
list. -/
def StrOrList.toParents : StrOrList → List String
  | .nil => []
  | .str s => [s]
  | .lst l => l

/-- `MetaComponent.apply_on_models`: `None` means all models; a single
string is wrapped into a one-element list; a list is returned as is. -/
def StrOrList.models : StrOrList → Option (List String)
  | .nil => none
  | .str s => some [s]
  | .lst l => some l

/-- The lookup-relevant attributes of a registered (composed) component
class: `_name` (its registry key), `_collection`, `_abstract`, `_usage`
and the raw `_apply_on`. -/
structure LComp where
  name : String
  collection : Option String
  abstract : Bool
  usage : Option String
  applyOn : StrOrList
deriving DecidableEq, BEq

/-- `apply_on_models` property of a component class. -/
def LComp.apply_on_models (c : LComp) : Option (List String) :=
  c.applyOn.models

/-- The global registry for lookups: an `OrderedDict` keyed by `_name`,
embedded as the insertion-ordered list of its values (each value carries
its own key in `name`). -/
abbrev Registry := List LComp

/-- The `collection_components` list built first in
`ComponentGlobalRegistry.lookup`: every registered component whose
`_collection` equals the requested collection name or is `None`, and which
is not abstract, in registration order. -/
def collection_components (reg : Registry) (collection_name : String) : List LComp :=
  reg.filter fun c =>
    (c.collection == some collection_name || c.collection == none) && !c.abstract

/-- The model-name filter at the end of `lookup`:
`c.apply_on_models is None or model_name in c.apply_on_models`.  The
Python `model_name` may be `None`; membership of a possibly-`None` value
in a list of strings is membership in the `some`-lifted list. -/
def modelOk (c : LComp) (model_name : Option String) : Bool :=
  match c.apply_on_models with
  | none => true
  | some l => decide (model_name ∈ l.map some)

/-- `ComponentGlobalRegistry.lookup(collection_name, usage, model_name)`.
`candidates` starts out as the empty list; when `usage` is given, the
usage-filtered list is assigned to it only when non-empty. -/
def lookup (reg : Registry) (collection_name : String)
    (usage : Option String) (model_name : Option String) : List LComp :=
  let colComps := collection_components reg collection_name
  let candidates : List LComp :=
    match usage with
    | some u =>
      let comps := colComps.filter fun c => c.usage == some u
      if comps.isEmpty then [] else comps
    | none => colComps
  candidates.filter fun c => modelOk c model_name

example :
    lookup [⟨"c1", some "coll", false, some "a", .nil⟩] "coll" (some "a") (some "m")
      = [⟨"c1", some "coll", false, some "a", .nil⟩] := by decide

example :
    lookup [⟨"c1", some "coll", false, some "a", .nil⟩] "coll" (some "b") (some "m")
      = [] := by decide

/-! ## Context propagation (`WorkContext`) -/

/-- A collection handle; the core only reads its `_name`. -/
structure Collection where
  name : String
deriving DecidableEq, BEq

/-- `WorkContext`: the collection we work with, the current model name,
the components registry resolved against, and the propagated extra
keyword attributes (in `_propagate_kwargs` order), whose values have an
opaque type `V`. -/
structure WorkContext (V : Type) where
  collection : Collection
  modelName : String
  registry : Registry
  extra : List (String × V)
deriving DecidableEq

/-- `WorkContext.__init__(collection, model_name, components_registry,
**kwargs)`: the registry is the one given, or the process-wide
`all_components` (passed here as `globalReg`) when `None`; every keyword
argument becomes an attribute and is recorded in `_propagate_kwargs`. -/
def mkWorkContext {V : Type} (collection : Collection) (model_name : String)
    (components_registry : Option Registry) (globalReg : Registry)
    (kwargs : List (String × V)) : WorkContext V :=
  { collection := collection
    modelName := model_name
    registry := components_registry.getD globalReg
    extra := kwargs }

/-- `WorkContext.work_on(model_name)`: rebuilds a context through
`__init__` from the same collection, the new model name, and the
propagated attributes (which always include `_components_registry`, so
the explicit registry is passed and the global default is ignored). -/
def WorkContext.work_on {V : Type} (w : WorkContext V) (model_name : String) :
    WorkContext V :=
  { collection := w.collection
    modelName := model_name
    registry := w.registry
    extra := w.extra }

/-! ## Resolution engine (`AbstractComponent`) -/

/-- The errors raised by the resolution engine, keeping the data each
`raise` site puts into its message.  `noComponentNamed`, `notApplicable`
and `noComponentFound` are the three `NoComponentError` sites;
`severalFound` is `SeveralComponentError` (the spec's
`AmbiguousComponentError`). -/
inductive ResolveErr where
  | noComponentNamed (name : String) : ResolveErr
  | notApplicable (name : String) (work_model : String) (hint : List String) : ResolveErr
  | noComponentFound (collection : String) (usage : Option String)
      (model_name : String) : ResolveErr
  | severalFound (collection : String) (usage : Option String)
      (model_name : String) (found : List String) : ResolveErr
deriving DecidableEq, BEq

/-- Which exception class an error belongs to: `true` for the
`NoComponentError` sites. -/
def ResolveErr.isNoComponent : ResolveErr → Bool
  | .noComponentNamed _ => true
  | .notApplicable _ _ _ => true
  | .noComponentFound _ _ _ => true
  | .severalFound _ _ _ _ => false

/-- Python `model_name or self.work.model_name`: `None` and the empty
string are falsy, anything else is returned as is. -/
def pyOrStr (x : Option String) (y : String) : String :=
  match x with
  | none => y
  | some s => if s = "" then y else s

/-- `AbstractComponent._component_class_by_name`: a plain dictionary
fetch, raising `NoComponentError` when the name is absent. -/
def component_class_by_name (reg : Registry) (name : String) :
    Except ResolveErr LComp :=
  match reg.find? (fun c => c.name == name) with
  | none => .error (.noComponentNamed name)
  | some c => .ok c

/-- The context used to instantiate the resolved class: the current one
when the working model name is unchanged, else one derived with
`work_on`. -/
def pivotContext {V : Type} (w : WorkContext V) (model_name : String) :
    WorkContext V :=
  if model_name = w.modelName then w else w.work_on model_name

/-- `AbstractComponent.component_by_name(name, model_name)`: fetch by
name, raise `NoComponentError` with a hint when `apply_on_models` is a
non-empty list not containing the working model, else instantiate — the
instance is embedded as the class paired with the context it is bound
to.  (In the source the `work_on` argument is the raw `model_name`,
which on that branch is necessarily the truthy string equal to
`work_model`.) -/
def component_by_name {V : Type} (w : WorkContext V) (name : String)
    (model_name : Option String) : Except ResolveErr (LComp × WorkContext V) :=
  match component_class_by_name w.registry name with
  | .error e => .error e
  | .ok c =>
    let work_model := pyOrStr model_name w.modelName
    match c.apply_on_models with
    | some l =>
      if !l.isEmpty && !l.contains work_model then
        .error (.notApplicable name work_model l)
      else
        .ok (c, pivotContext w work_model)
    | none => .ok (c, pivotContext w work_model)

/-- `AbstractComponent._lookup_components` followed by
`AbstractComponent.component(usage, model_name)`: default the model name
to the working one, look the candidates up, raise `NoComponentError` on
zero matches and `SeveralComponentError` on several, else instantiate
the single match. -/
def component {V : Type} (w : WorkContext V) (usage : Option String)
    (model_name : Option String) : Except ResolveErr (LComp × WorkContext V) :=
  let model_name := pyOrStr model_name w.modelName
  let component_classes := lookup w.registry w.collection.name usage (some model_name)
  match component_classes with
  | [] => .error (.noComponentFound w.collection.name usage model_name)
  | [c] => .ok (c, pivotContext w model_name)
  | _ :: _ :: _ =>
    .error (.severalFound w.collection.name usage model_name
      (component_classes.map LComp.name))

/-! ## Composition builder (`AbstractComponent._build_component`)

A declaration is a Python class with `_name` and `_inherit`; its class
object identity is embedded as a numeric `id`.  A base of a generated
`ComponentClass` is either such a declaration class, or another
`ComponentClass`, referred to by its registry name because those objects
are shared and mutated in place. -/

/-- A declaration processed by `_build_component`: the class object
(identified by `id`), its `_name` and its `_inherit`. -/
structure Decl where
  id : Nat
  name : Option String
  inherit : StrOrList
deriving DecidableEq, BEq

/-- An entry of a generated class's `__bases__`: the declaration class
itself, or a composed `ComponentClass` referenced by registry name. -/
inductive Base where
  | decl (id : Nat) : Base
  | comp (name : String) : Base
deriving DecidableEq, BEq

/-- A composed `ComponentClass`: its `_name`, its `__bases__` (the
linearization list, first entry wins) and its `_inherit_children`. -/
structure CompClass where
  name : String
  bases : List Base
  children : List String
deriving DecidableEq, BEq

/-- The registry being built: an `OrderedDict` name → `ComponentClass`,
embedded as an insertion-ordered association list with unique keys. -/
abbrev BReg := List (String × CompClass)

/-- Dictionary membership test. -/
def BReg.containsName (reg : BReg) (n : String) : Bool :=
  reg.any fun p => p.1 == n

/-- Dictionary fetch. -/
def BReg.get? (reg : BReg) (n : String) : Option CompClass :=
  (reg.find? fun p => p.1 == n).map Prod.snd

/-- `OrderedDict` assignment `registry[n] = c`: updates the value in
place when the key exists (keeping its position), else appends. -/
def BReg.set (reg : BReg) (n : String) (c : CompClass) : BReg :=
  if reg.containsName n then
    reg.map fun p => if p.1 == n then (p.1, c) else p
  else
    reg ++ [(n, c)]

/-- `OrderedSet.add` (used for `_inherit_children`): append when absent,
keep the first occurrence otherwise. -/
def ordSetAdd (l : List String) (x : String) : List String :=
  if x ∈ l then l else l ++ [x]

/-- `parent_class._inherit_children.add(name)`, applied to the parent's
registry entry (shared mutable class object). -/
def BReg.addChild (reg : BReg) (parent child : String) : BReg :=
  reg.map fun p =>
    if p.1 == parent then (p.1, { p.2 with children := ordSetAdd p.2.children child })
    else p

/-- `LastOrderedSet.add`: re-adding an element moves it to the end, so
the last insertion wins the position. -/
def lastOrderedAdd (l : List Base) (b : Base) : List Base :=
  (l.filter fun x => x ≠ b) ++ [b]

/-- The extend-in-place shorthand `len(parents) == 1 and parents[0]`,
yielding a usable name only when the single parent name is truthy. -/
def shorthandName (parents : List String) : Option String :=
  match parents with
  | [p] => if p = "" then none else some p
  | _ => none

/-- The name resolved for a declaration:
`cls._name or (len(parents) == 1 and parents[0])`, with `if not name`
raising afterwards — `None` and the empty string are falsy. -/
def resolvedName (d : Decl) : Option String :=
  match d.name with
  | some s => if s = "" then shorthandName d.inherit.toParents else some s
  | none => shorthandName d.inherit.toParents

/-- The errors `_build_component` raises (all `TypeError` in the source;
the spec calls them `DuplicateComponentError`, `MissingNameError` and
`UnknownParentError`). -/
inductive BuildErr where
  | duplicate (name : String) : BuildErr
  | missingName : BuildErr
  | unknownParentInPlace (name : String) : BuildErr
  | unknownParent (name parent : String) : BuildErr
deriving DecidableEq, BEq

/-- Which errors the spec groups as `UnknownParentError` (the in-place
target missing from the registry, or a listed parent missing). -/
def BuildErr.isUnknownParent : BuildErr → Bool
  | .unknownParentInPlace _ => true
  | .unknownParent _ _ => true
  | _ => false

/-- The `for parent in parents` loop of `_build_component`: each parent
must be registered; the component's own name contributes the existing
class's `__bases__`, any other parent contributes its `ComponentClass`
and records the child link.  `inPlaceBases` is `registry[name].__bases__`
as read during the loop (the entry at `name` is not reassigned before the
loop ends). -/
def basesLoop (name : String) (inPlaceBases : List Base) :
    List String → List Base → BReg → Except BuildErr (List Base × BReg)
  | [], bases, reg => .ok (bases, reg)
  | p :: ps, bases, reg =>
    if reg.containsName p then
      if p = name then
        basesLoop name inPlaceBases ps (inPlaceBases.foldl lastOrderedAdd bases) reg
      else
        basesLoop name inPlaceBases ps (lastOrderedAdd bases (Base.comp p))
          (reg.addChild p name)
    else
      .error (.unknownParent name p)

/-- The implicit-universal-base step of `_build_component`: unless the
resolved name is the universal `base` component, `'base'` is appended to
the parents list. -/
def withBase (name : String) (parents : List String) : List String :=
  if name ≠ "base" then parents ++ ["base"] else parents

/-- The create-or-retrieve step of `_build_component`: extend-in-place
(the name is among its parents) retrieves the existing `ComponentClass`
(its current `__bases__` and `_inherit_children`), erroring when the
name is not registered; a new derivation starts from a freshly created
class with empty `_inherit_children` (its initial bases are irrelevant
because `__bases__` is reassigned after the loop). -/
def createOrRetrieve (reg : BReg) (name : String) (parents : List String) :
    Except BuildErr (List Base × List String) :=
  if name ∈ parents then
    match reg.get? name with
    | none => .error (.unknownParentInPlace name)
    | some cc => .ok (cc.bases, cc.children)
  else
    .ok ([], [])

/-- The end of `_build_component`: the bases loop starting from
`LastOrderedSet([cls])`, the assignment of `__bases__`, and the registry
insertion.  (`_complete_component_build` is a no-op hook.) -/
def buildFinish (reg : BReg) (d : Decl) (name : String) (ccBases : List Base)
    (ccChildren : List String) : Except BuildErr (CompClass × BReg) :=
  match basesLoop name ccBases (withBase name d.inherit.toParents)
      [Base.decl d.id] reg with
  | .error e => .error e
  | .ok (bases, reg1) =>
    let cc : CompClass := { name := name, bases := bases, children := ccChildren }
    .ok (cc, reg1.set name cc)

/-- The tail of `_build_component` once the name is resolved. -/
def buildResolved (reg : BReg) (d : Decl) (name : String) :
    Except BuildErr (CompClass × BReg) :=
  match createOrRetrieve reg name (withBase name d.inherit.toParents) with
  | .error e => .error e
  | .ok (ccBases, ccChildren) => buildFinish reg d name ccBases ccChildren

/-- The duplicate-name check at the top of `_build_component`:
`cls._name in registry` (Python `None` is never a key). -/
def dupCheck (reg : BReg) (d : Decl) : Bool :=
  match d.name with
  | some s => reg.containsName s
  | none => false

/-- `AbstractComponent._build_component(registry)`: the duplicate-name
check on `cls._name`, the name resolution with its `must have a _name`
error, then `buildResolved`. -/
def buildComponent (reg : BReg) (d : Decl) : Except BuildErr (CompClass × BReg) :=
  if dupCheck reg d then .error (.duplicate (d.name.getD ""))
  else
    match resolvedName d with
    | none => .error .missingName
    | some name => buildResolved reg d name

theorem buildComponent_resolved {reg : BReg} {d : Decl} {n : String}
    (hdup : dupCheck reg d = false) (hres : resolvedName d = some n) :
    buildComponent reg d = buildResolved reg d n := by
  unfold buildComponent
  rw [hdup, hres]
  rfl

example :
    buildComponent [] { id := 0, name := some "base", inherit := .nil }
      = .ok ({ name := "base", bases := [Base.decl 0], children := [] },
             [("base", { name := "base", bases := [Base.decl 0], children := [] })]) := by
  rfl

/-! ## Lemmas about `lookup` -/

theorem if_isEmpty_eq {α : Type} (l : List α) : (if l.isEmpty then ([] : List α) else l) = l := by
  cases l <;> simp

/-- The usage narrowing predicate of `lookup`, vacuous when no usage is
requested. -/
def usageOk (c : LComp) (usage : Option String) : Bool :=
  match usage with
  | some u => c.usage == some u
  | none => true

/-- `lookup` is the plain three-stage filter pipeline: the
`if components:` guard in the source is a no-op because `candidates`
starts out empty. -/
theorem lookup_eq_filters (reg : Registry) (coll : String)
    (usage model_name : Option String) :
    lookup reg coll usage model_name =
      (((collection_components reg coll).filter fun c => usageOk c usage).filter
        fun c => modelOk c model_name) := by
  unfold lookup
  cases usage with
  | none => simp [usageOk, List.filter_true]
  | some u =>
    simp only [usageOk]
    rw [if_isEmpty_eq]

theorem lookup_sublist (reg : Registry) (coll : String)
    (usage model_name : Option String) :
    (lookup reg coll usage model_name).Sublist reg := by
  rw [lookup_eq_filters]
  exact ((List.filter_sublist _).trans (List.filter_sublist _)).trans
    (List.filter_sublist _)

theorem mem_lookup_iff (reg : Registry) (coll : String)
    (usage model_name : Option String) (c : LComp) :
    c ∈ lookup reg coll usage model_name ↔
      c ∈ reg ∧ (c.collection = some coll ∨ c.collection = none) ∧
      c.abstract = false ∧
      (∀ u, usage = some u → c.usage = some u) ∧
      (c.apply_on_models = none ∨
        ∃ l, c.apply_on_models = some l ∧ model_name ∈ l.map some) := by
  rw [lookup_eq_filters]
  unfold collection_components usageOk
  simp only [List.mem_filter, Bool.and_eq_true, Bool.or_eq_true, beq_iff_eq,
    Bool.not_eq_true']
  constructor
  · rintro ⟨⟨⟨hreg, hcoll, habs⟩, husage⟩, hmodel⟩
    refine ⟨hreg, hcoll, habs, ?_, ?_⟩
    · intro u hu
      subst hu
      exact beq_iff_eq.mp husage
    · unfold modelOk at hmodel
      cases hm : c.apply_on_models with
      | none => exact Or.inl rfl
      | some l =>
        rw [hm] at hmodel
        exact Or.inr ⟨l, rfl, of_decide_eq_true hmodel⟩
  · rintro ⟨hreg, hcoll, habs, husage, hmodel⟩
    refine ⟨⟨⟨hreg, hcoll, habs⟩, ?_⟩, ?_⟩
    · cases usage with
      | none => rfl
      | some u => exact beq_iff_eq.mpr (husage u rfl)
    · unfold modelOk
      rcases hmodel with hm | ⟨l, hl, hmem⟩
      · rw [hm]
      · rw [hl]
        exact decide_eq_true hmem

/-! ## Claim C1 -/

/-- A registry with a single concrete component of usage `"a"`
registered in collection `"coll"` and applicable to all models. -/
def c1comp : LComp :=
  { name := "c1", collection := some "coll", abstract := false,
    usage := some "a", applyOn := .nil }

def reg1 : Registry := [c1comp]

/-- C1 counterexample: on `reg1`, looking up usage `"b"` narrows the
candidate set to zero components, yet `lookup` returns the empty list
and not the pre-narrowing candidate set filtered by entity type (which
is what `lookup` without `usage` returns): there is no fallback. -/
theorem claim_C1_counterexample :
    ((collection_components reg1 "coll").filter fun c => c.usage == some "b") = [] ∧
    lookup reg1 "coll" (some "b") (some "m") = [] ∧
    lookup reg1 "coll" none (some "m") = [c1comp] ∧
    lookup reg1 "coll" (some "b") (some "m") ≠
      lookup reg1 "coll" none (some "m") := by
  decide

/-- C1 amended: when the usage narrowing yields zero components,
`lookup` returns the empty list — the pre-narrowing candidate set is
discarded, not kept. -/
theorem claim_C1_amended (reg : Registry) (coll u : String) (model_name : Option String)
    (h : ((collection_components reg coll).filter fun c => c.usage == some u) = []) :
    lookup reg coll (some u) model_name = [] := by
  unfold lookup
  simp [h]

theorem claim_C1_amended_witness :
    (((collection_components reg1 "coll").filter fun c => c.usage == some "b") = []) ∧
    lookup reg1 "coll" (some "b") (some "m") = [] :=
  ⟨by decide, claim_C1_amended reg1 "coll" "b" (some "m") (by decide)⟩

/-! ## Claim C3 -/

/-- C3: `lookup` returns exactly the registered composed types that are
not abstract and whose collection equals the requested one or is `None`,
narrowed by usage when given, and of those exactly the ones whose
`apply_on_models` is `None` or contains the model name; the result is a
sublist of the registry, so registration order is preserved.  `lookup`
is a plain function of the registry and the three arguments and returns
registry entries themselves (no instantiation, no side effects). -/
theorem claim_C3_lookup_exact (reg : Registry) (coll : String)
    (usage model_name : Option String) :
    (lookup reg coll usage model_name =
      (((collection_components reg coll).filter fun c => usageOk c usage).filter
        fun c => modelOk c model_name)) ∧
    (lookup reg coll usage model_name).Sublist reg ∧
    (∀ c : LComp, c ∈ lookup reg coll usage model_name ↔
      c ∈ reg ∧ (c.collection = some coll ∨ c.collection = none) ∧
      c.abstract = false ∧
      (∀ u, usage = some u → c.usage = some u) ∧
      (c.apply_on_models = none ∨
        ∃ l, c.apply_on_models = some l ∧ model_name ∈ l.map some)) :=
  ⟨lookup_eq_filters reg coll usage model_name,
   lookup_sublist reg coll usage model_name,
   fun c => mem_lookup_iff reg coll usage model_name c⟩

/-! ## Claim C10 -/

/-- C10: calling `lookup` without a model name keeps only components
whose `_apply_on` is `None` — `None` is never a member of a list of
model-name strings — so omitting the entity type narrows the result:
anything returned without a model name is also returned for every
concrete model name. -/
theorem claim_C10_lookup_without_model (reg : Registry) (coll : String)
    (usage : Option String) (c : LComp)
    (h : c ∈ lookup reg coll usage none) :
    c.apply_on_models = none ∧ c.applyOn = .nil ∧
    ∀ m : String, c ∈ lookup reg coll usage (some m) := by
  rw [mem_lookup_iff] at h
  obtain ⟨hreg, hcoll, habs, husage, hmodel⟩ := h
  have hnone : c.apply_on_models = none := by
    rcases hmodel with hm | ⟨l, _, hmem⟩
    · exact hm
    · simp at hmem
  refine ⟨hnone, ?_, ?_⟩
  · unfold LComp.apply_on_models StrOrList.models at hnone
    cases hap : c.applyOn <;> rw [hap] at hnone <;> simp_all
  · intro m
    rw [mem_lookup_iff]
    exact ⟨hreg, hcoll, habs, husage, Or.inl hnone⟩

theorem claim_C10_witness :
    c1comp ∈ lookup reg1 "coll" (some "a") none ∧
    c1comp.apply_on_models = none ∧ c1comp.applyOn = .nil ∧
    c1comp ∈ lookup reg1 "coll" (some "a") (some "m") := by
  have hm : lookup reg1 "coll" (some "a") none = [c1comp] := by decide
  have h0 : c1comp ∈ lookup reg1 "coll" (some "a") none := by
    rw [hm]
    exact List.mem_singleton.mpr rfl
  have h := claim_C10_lookup_without_model reg1 "coll" (some "a") c1comp h0
  exact ⟨h0, h.1, h.2.1, h.2.2 "m"⟩

/-! ## Claim C9 -/

/-- C9: `work_on` derives a sibling context that keeps the collection
handle, the registry reference and every propagated extra attribute of
the receiver, and replaces only the model name; it equals a context
rebuilt through `__init__` with the receiver's registry passed
explicitly, for any ambient global registry.  (The receiver itself is a
pure value, so it is unchanged by construction.) -/
theorem claim_C9_work_on {V : Type} (w : WorkContext V) (m : String) :
    (w.work_on m).collection = w.collection ∧
    (w.work_on m).registry = w.registry ∧
    (w.work_on m).extra = w.extra ∧
    (w.work_on m).modelName = m ∧
    ∀ globalReg : Registry,
      w.work_on m = mkWorkContext w.collection m (some w.registry) globalReg w.extra :=
  ⟨rfl, rfl, rfl, rfl, fun _ => rfl⟩

/-! ## Claim C2 -/

/-- The candidate list `AbstractComponent.component` resolves against:
the registry lookup for the current collection, the requested usage, and
the requested model name defaulted to the working one. -/
def resolveCandidates {V : Type} (w : WorkContext V) (usage mn : Option String) :
    List LComp :=
  lookup w.registry w.collection.name usage (some (pyOrStr mn w.modelName))

theorem component_cases {V : Type} (w : WorkContext V) (usage mn : Option String) :
    component w usage mn =
      match resolveCandidates w usage mn with
      | [] => .error (.noComponentFound w.collection.name usage (pyOrStr mn w.modelName))
      | [c] => .ok (c, pivotContext w (pyOrStr mn w.modelName))
      | _ :: _ :: _ =>
        .error (.severalFound w.collection.name usage (pyOrStr mn w.modelName)
          ((resolveCandidates w usage mn).map LComp.name)) := rfl

/-- C2: `component` (the spec's `resolve_one`) raises `NoComponentError`
exactly when the lookup for the same collection, usage and (defaulted)
model name is empty, raises `SeveralComponentError` (the spec's
`AmbiguousComponentError`, naming the conflicting composed types)
exactly when it has more than one match, and otherwise returns the
single match — which is a member of that lookup result — bound to the
pivoted context; a tie is never broken silently by registry order. -/
theorem claim_C2_resolve_one {V : Type} (w : WorkContext V) (usage mn : Option String) :
    (resolveCandidates w usage mn = [] →
      component w usage mn =
        .error (.noComponentFound w.collection.name usage (pyOrStr mn w.modelName))) ∧
    (1 < (resolveCandidates w usage mn).length →
      component w usage mn =
        .error (.severalFound w.collection.name usage (pyOrStr mn w.modelName)
          ((resolveCandidates w usage mn).map LComp.name))) ∧
    (∀ c ctx, component w usage mn = .ok (c, ctx) →
      resolveCandidates w usage mn = [c] ∧
      ctx = pivotContext w (pyOrStr mn w.modelName) ∧
      c ∈ resolveCandidates w usage mn) ∧
    ((ResolveErr.noComponentFound w.collection.name usage
        (pyOrStr mn w.modelName)).isNoComponent = true) ∧
    ((ResolveErr.severalFound w.collection.name usage (pyOrStr mn w.modelName)
        ((resolveCandidates w usage mn).map LComp.name)).isNoComponent = false) := by
  refine ⟨?_, ?_, ?_, rfl, rfl⟩
  · intro h
    rw [component_cases, h]
  · intro h
    rcases hL : resolveCandidates w usage mn with _ | ⟨c, _ | ⟨c2, cs⟩⟩
    · rw [hL] at h
      simp at h
    · rw [hL] at h
      simp at h
    · rw [component_cases, hL]
  · intro c ctx hok
    rcases hL : resolveCandidates w usage mn with _ | ⟨c1, _ | ⟨c2, cs⟩⟩ <;>
      rw [component_cases, hL] at hok
    · exact Except.noConfusion hok
    · injection hok with hpair
      have h1 : c1 = c := congrArg Prod.fst hpair
      have h2 : pivotContext w (pyOrStr mn w.modelName) = ctx := congrArg Prod.snd hpair
      refine ⟨?_, h2.symm, ?_⟩
      · rw [h1]
      · rw [h1]
        exact List.mem_singleton.mpr rfl
    · exact Except.noConfusion hok

def cX : LComp :=
  { name := "x", collection := some "coll", abstract := false,
    usage := some "u", applyOn := .nil }

def cY : LComp :=
  { name := "y", collection := some "coll", abstract := false,
    usage := some "u", applyOn := .nil }

def w2 : WorkContext Unit :=
  { collection := ⟨"coll"⟩, modelName := "m", registry := [cX, cY], extra := [] }

theorem claim_C2_witness :
    component w2 (some "u") none =
      .error (.severalFound "coll" (some "u") "m" ["x", "y"]) :=
  (claim_C2_resolve_one w2 (some "u") none).2.1 (by decide)

/-! ## Claim C6 -/

/-- C6: `component_by_name` raises `NoComponentError` when the name is
absent from the registry; raises `NoComponentError` carrying the
applicable models as a hint when the composed type's `apply_on_models`
is a non-empty list that does not contain the working model name; and
otherwise returns the registry entry for that name bound to the current
context, pivoted to the requested model name only when it differs from
the current one (the pivot behavior is the last two conjuncts). -/
theorem claim_C6_component_by_name {V : Type} (w : WorkContext V) (name : String)
    (mn : Option String) :
    (w.registry.find? (fun c => c.name == name) = none →
      component_by_name w name mn = .error (.noComponentNamed name) ∧
      (ResolveErr.noComponentNamed name).isNoComponent = true) ∧
    (∀ c, w.registry.find? (fun c => c.name == name) = some c →
      (∀ l, c.apply_on_models = some l → l ≠ [] → pyOrStr mn w.modelName ∉ l →
        component_by_name w name mn =
          .error (.notApplicable name (pyOrStr mn w.modelName) l) ∧
        (ResolveErr.notApplicable name (pyOrStr mn w.modelName) l).isNoComponent = true) ∧
      ((c.apply_on_models = none ∨
          ∃ l, c.apply_on_models = some l ∧ (l = [] ∨ pyOrStr mn w.modelName ∈ l)) →
        component_by_name w name mn = .ok (c, pivotContext w (pyOrStr mn w.modelName)))) ∧
    (pyOrStr mn w.modelName = w.modelName →
      pivotContext w (pyOrStr mn w.modelName) = w) ∧
    (pyOrStr mn w.modelName ≠ w.modelName →
      pivotContext w (pyOrStr mn w.modelName) =
        w.work_on (pyOrStr mn w.modelName)) := by
  refine ⟨?_, ?_, ?_, ?_⟩
  · intro hf
    refine ⟨?_, rfl⟩
    unfold component_by_name component_class_by_name
    rw [hf]
  · intro c hf
    constructor
    · intro l hl hne hnm
      refine ⟨?_, rfl⟩
      unfold component_by_name component_class_by_name
      rw [hf]
      dsimp only
      rw [hl]
      dsimp only
      have hcond : (!l.isEmpty && !l.contains (pyOrStr mn w.modelName)) = true := by
        simp only [Bool.and_eq_true, Bool.not_eq_true']
        constructor
        · cases l with
          | nil => exact absurd rfl hne
          | cons a as => rfl
        · rw [List.contains_eq_any_beq]
          simp only [List.any_eq_false, beq_iff_eq]
          intro x hx hxe
          exact hnm (hxe ▸ hx)
      rw [hcond]
      rfl
    · intro happ
      unfold component_by_name component_class_by_name
      rw [hf]
      dsimp only
      rcases happ with hnone | ⟨l, hl, hcase⟩
      · rw [hnone]
      · rw [hl]
        dsimp only
        have hcond : (!l.isEmpty && !l.contains (pyOrStr mn w.modelName)) = false := by
          rcases hcase with hle | hmem
          · subst hle
            rfl
          · have hc : l.contains (pyOrStr mn w.modelName) = true := by
              rw [List.contains_eq_any_beq]
              exact List.any_eq_true.mpr ⟨_, hmem, beq_self_eq_true _⟩
            rw [hc]
            simp
        rw [hcond]
        rfl
  · intro h
    unfold pivotContext
    rw [if_pos h]
  · intro h
    unfold pivotContext
    rw [if_neg h]

/-- A component restricted to model `"other.model"`. -/
def cA : LComp :=
  { name := "cA", collection := some "coll", abstract := false,
    usage := some "u", applyOn := .lst ["other.model"] }

def w6 : WorkContext Unit :=
  { collection := ⟨"coll"⟩, modelName := "m.model", registry := [cA], extra := [] }

theorem claim_C6_witness :
    component_by_name w6 "cA" none =
      .error (.notApplicable "cA" "m.model" ["other.model"]) :=
  ((((claim_C6_component_by_name w6 "cA" none).2.1) cA (by decide)).1
    ["other.model"] rfl (by decide) (by decide)).1

/-! ## Lemmas about `LastOrderedSet` and the bases loop -/

theorem mem_lastOrderedAdd_self (l : List Base) (b : Base) :
    b ∈ lastOrderedAdd l b :=
  List.mem_append_right _ (List.mem_singleton.mpr rfl)

theorem mem_lastOrderedAdd_of_mem {l : List Base} {x b : Base} (h : b ∈ l) :
    b ∈ lastOrderedAdd l x := by
  by_cases hb : b = x
  · subst hb
    exact mem_lastOrderedAdd_self l b
  · exact List.mem_append_left _ (List.mem_filter.mpr ⟨h, by simpa using hb⟩)

theorem exists_head_lastOrderedAdd {d x : Base} (hx : x ≠ d) (t : List Base) :
    ∃ t2, lastOrderedAdd (d :: t) x = d :: t2 := by
  unfold lastOrderedAdd
  rw [List.filter_cons_of_pos]
  · exact ⟨_, rfl⟩
  · simpa using fun h => hx h.symm

theorem mem_foldl_lastOrderedAdd_of_mem :
    ∀ (l acc : List Base) {b : Base}, b ∈ acc → b ∈ l.foldl lastOrderedAdd acc := by
  intro l
  induction l with
  | nil => exact fun acc b h => h
  | cons x xs ih => exact fun acc b h => ih _ (mem_lastOrderedAdd_of_mem h)

theorem mem_foldl_lastOrderedAdd_of_mem_list :
    ∀ (l acc : List Base) {b : Base}, b ∈ l → b ∈ l.foldl lastOrderedAdd acc := by
  intro l
  induction l with
  | nil => exact fun acc b h => absurd h (List.not_mem_nil b)
  | cons x xs ih =>
    intro acc b h
    rcases List.mem_cons.mp h with hb | hb
    · subst hb
      exact mem_foldl_lastOrderedAdd_of_mem xs _ (mem_lastOrderedAdd_self acc b)
    · exact ih _ hb

theorem head_foldl_lastOrderedAdd {d : Base} :
    ∀ (l : List Base), d ∉ l → ∀ (t : List Base),
      ∃ t2, l.foldl lastOrderedAdd (d :: t) = d :: t2 := by
  intro l
  induction l with
  | nil => exact fun _ t => ⟨t, rfl⟩
  | cons x xs ih =>
    intro hd t
    have hx : x ≠ d := fun h => hd (h ▸ List.mem_cons_self x xs)
    obtain ⟨t1, ht1⟩ := exists_head_lastOrderedAdd hx t
    have hd2 : d ∉ xs := fun h => hd (List.mem_cons_of_mem x h)
    obtain ⟨t2, ht2⟩ := ih hd2 t1
    exact ⟨t2, by rw [List.foldl_cons, ht1, ht2]⟩

theorem basesLoop_ok_mem {name : String} {ob : List Base} :
    ∀ {ps : List String} {bases : List Base} {reg : BReg} {res : List Base}
      {reg2 : BReg}, basesLoop name ob ps bases reg = .ok (res, reg2) →
      ∀ {b : Base}, b ∈ bases → b ∈ res := by
  intro ps
  induction ps with
  | nil =>
    intro bases reg res reg2 h b hb
    injection h with h
    injection h with h1 h2
    exact h1 ▸ hb
  | cons p ps ih =>
    intro bases reg res reg2 h b hb
    rw [basesLoop] at h
    split at h
    · split at h
      · exact ih h (mem_foldl_lastOrderedAdd_of_mem ob bases hb)
      · exact ih h (mem_lastOrderedAdd_of_mem hb)
    · exact Except.noConfusion h

theorem basesLoop_ok_mem_ob {name : String} {ob : List Base} :
    ∀ {ps : List String} {bases : List Base} {reg : BReg} {res : List Base}
      {reg2 : BReg}, basesLoop name ob ps bases reg = .ok (res, reg2) →
      name ∈ ps → ∀ {b : Base}, b ∈ ob → b ∈ res := by
  intro ps
  induction ps with
  | nil => exact fun h hmem => absurd hmem (List.not_mem_nil name)
  | cons p ps ih =>
    intro bases reg res reg2 h hmem b hb
    rw [basesLoop] at h
    split at h
    · split at h
      · exact basesLoop_ok_mem h (mem_foldl_lastOrderedAdd_of_mem_list ob bases hb)
      · rcases List.mem_cons.mp hmem with hn | hn
        · rename_i hne
          exact absurd hn.symm hne
        · exact ih h hn hb
    · exact Except.noConfusion h

theorem basesLoop_ok_head {name : String} {ob : List Base} {i : Nat}
    (hob : Base.decl i ∉ ob) :
    ∀ {ps : List String} {t bases : List Base} {reg : BReg} {res : List Base}
      {reg2 : BReg}, bases = Base.decl i :: t →
      basesLoop name ob ps bases reg = .ok (res, reg2) →
      ∃ t2, res = Base.decl i :: t2 := by
  intro ps
  induction ps with
  | nil =>
    intro t bases reg res reg2 hb h
    injection h with h
    injection h with h1 h2
    exact ⟨t, h1 ▸ hb⟩
  | cons p ps ih =>
    intro t bases reg res reg2 hb h
    rw [basesLoop] at h
    split at h
    · split at h
      · subst hb
        obtain ⟨t2, ht2⟩ := head_foldl_lastOrderedAdd ob hob t
        exact ih ht2 h
      · subst hb
        obtain ⟨t2, ht2⟩ :=
          exists_head_lastOrderedAdd (d := Base.decl i) (x := Base.comp p)
            (by intro h2; exact Base.noConfusion h2) t
        exact ih ht2 h
    · exact Except.noConfusion h

theorem basesLoop_ok_last {name : String} {ob : List Base} (hn : name ≠ "base") :
    ∀ {ps : List String} {bases : List Base} {reg : BReg} {res : List Base}
      {reg2 : BReg},
      basesLoop name ob (ps ++ ["base"]) bases reg = .ok (res, reg2) →
      res.getLast? = some (Base.comp "base") := by
  intro ps
  induction ps with
  | nil =>
    intro bases reg res reg2 h
    rw [List.nil_append, basesLoop] at h
    split at h
    · split at h
      · next heq => exact absurd heq.symm hn
      · rw [basesLoop] at h
        injection h with h
        injection h with h1 h2
        rw [← h1]
        unfold lastOrderedAdd
        exact List.getLast?_concat _
    · exact Except.noConfusion h
  | cons p ps ih =>
    intro bases reg res reg2 h
    rw [List.cons_append, basesLoop] at h
    split at h
    · split at h
      · exact ih h
      · exact ih h
    · exact Except.noConfusion h

theorem basesLoop_error_unknown {name : String} {ob : List Base} :
    ∀ {ps : List String} {bases : List Base} {reg : BReg} {e : BuildErr},
      basesLoop name ob ps bases reg = .error e →
      ∃ p, e = .unknownParent name p := by
  intro ps
  induction ps with
  | nil =>
    intro bases reg e h
    exact Except.noConfusion h
  | cons p ps ih =>
    intro bases reg e h
    rw [basesLoop] at h
    split at h
    · split at h
      · exact ih h
      · exact ih h
    · injection h with h
      exact ⟨p, h.symm⟩

theorem mem_of_getLast?_eq {α : Type} {l : List α} {a : α}
    (h : l.getLast? = some a) : a ∈ l := by
  obtain ⟨hne, hx⟩ :=
    List.mem_getLast?_eq_getLast (l := l) (x := a) (by rw [h]; rfl)
  rw [hx]
  exact List.getLast_mem hne

/-! ## Claim C4 -/

/-- C4: for a declaration whose resolved name is among its own parents
(extend-in-place), the build raises `UnknownParentError` when no
composed type of that name is registered yet; otherwise, on success, the
new declaration's class is placed at the front of the composed type's
bases and every previously composed base appears after it (so behavior
of the new declaration overrides all prior entries).  The freshness
hypothesis says the new class object is not already among the old bases
(distinct Python class objects). -/
theorem claim_C4_extend_in_place (reg : BReg) (d : Decl) (n : String)
    (hres : resolvedName d = some n)
    (hin : n ∈ d.inherit.toParents)
    (hdup : dupCheck reg d = false) :
    (BReg.get? reg n = none →
      buildComponent reg d = .error (.unknownParentInPlace n)) ∧
    (∀ old, BReg.get? reg n = some old → Base.decl d.id ∉ old.bases →
      ∀ cc reg2, buildComponent reg d = .ok (cc, reg2) →
        ∃ t, cc.bases = Base.decl d.id :: t ∧ ∀ b ∈ old.bases, b ∈ t) := by
  have hbr := buildComponent_resolved hdup hres
  have hparents : n ∈ withBase n d.inherit.toParents := by
    unfold withBase
    split
    · exact List.mem_append_left _ hin
    · exact hin
  constructor
  · intro hget
    rw [hbr]
    unfold buildResolved
    have hco : createOrRetrieve reg n (withBase n d.inherit.toParents) =
        .error (.unknownParentInPlace n) := by
      unfold createOrRetrieve
      rw [if_pos hparents, hget]
    rw [hco]
  · intro old hget hfresh cc reg2 hok
    rw [hbr] at hok
    unfold buildResolved at hok
    have hco : createOrRetrieve reg n (withBase n d.inherit.toParents) =
        .ok (old.bases, old.children) := by
      unfold createOrRetrieve
      rw [if_pos hparents, hget]
    rw [hco] at hok
    dsimp only at hok
    unfold buildFinish at hok
    cases hbl : basesLoop n old.bases (withBase n d.inherit.toParents)
        [Base.decl d.id] reg with
    | error e =>
      rw [hbl] at hok
      exact Except.noConfusion hok
    | ok pr =>
      obtain ⟨bases, reg1⟩ := pr
      rw [hbl] at hok
      dsimp only at hok
      injection hok with hok
      have hcc : ({ name := n, bases := bases, children := old.children } : CompClass)
          = cc := congrArg Prod.fst hok
      obtain ⟨t2, ht2⟩ := basesLoop_ok_head hfresh rfl hbl
      refine ⟨t2, ?_, ?_⟩
      · rw [← hcc]
        exact ht2
      · intro b hb
        have hmem : b ∈ bases := basesLoop_ok_mem_ob hbl hparents hb
        rw [ht2] at hmem
        rcases List.mem_cons.mp hmem with h1 | h1
        · exact absurd (h1 ▸ hb) hfresh
        · exact h1

/-- The registry after `base` and a component `a` deriving from it have
been composed. -/
def reg4 : BReg :=
  [("base", { name := "base", bases := [Base.decl 0], children := ["a"] }),
   ("a", { name := "a", bases := [Base.decl 1, Base.comp "base"], children := [] })]

/-- A nameless declaration extending `a` in place. -/
def d4 : Decl := { id := 2, name := none, inherit := .str "a" }

def cc4 : CompClass :=
  { name := "a", bases := [Base.decl 2, Base.decl 1, Base.comp "base"],
    children := [] }

theorem claim_C4_witness :
    ∃ t, cc4.bases = Base.decl 2 :: t ∧
      ∀ b ∈ [Base.decl 1, Base.comp "base"], b ∈ t :=
  (claim_C4_extend_in_place reg4 d4 "a" rfl (by simp [d4, StrOrList.toParents])
      rfl).2
    { name := "a", bases := [Base.decl 1, Base.comp "base"], children := [] }
    rfl (by simp [d4]) cc4 (reg4.set "a" cc4) rfl

/-! ## Claim C5 -/

/-- C5: every successfully composed component whose resolved name is not
`"base"` gets the universal base component appended to its parents, so
its bases list is non-empty, ends in the composed `base` class, and
contains it. -/
theorem claim_C5_universal_base (reg : BReg) (d : Decl) (n : String)
    (hres : resolvedName d = some n) (hn : n ≠ "base")
    (cc : CompClass) (reg2 : BReg)
    (hok : buildComponent reg d = .ok (cc, reg2)) :
    withBase n d.inherit.toParents = d.inherit.toParents ++ ["base"] ∧
    cc.bases ≠ [] ∧ cc.bases.getLast? = some (Base.comp "base") ∧
    Base.comp "base" ∈ cc.bases := by
  have hdup : dupCheck reg d = false := by
    cases hd : dupCheck reg d
    · rfl
    · rw [buildComponent, hd] at hok
      exact Except.noConfusion (if_pos rfl ▸ hok)
  rw [buildComponent_resolved hdup hres] at hok
  unfold buildResolved at hok
  have hwb : withBase n d.inherit.toParents = d.inherit.toParents ++ ["base"] := by
    unfold withBase
    rw [if_pos hn]
  rw [hwb] at hok
  cases hco : createOrRetrieve reg n (d.inherit.toParents ++ ["base"]) with
  | error e =>
    rw [hco] at hok
    exact Except.noConfusion hok
  | ok pr =>
    obtain ⟨ob, ch⟩ := pr
    rw [hco] at hok
    dsimp only at hok
    unfold buildFinish at hok
    rw [hwb] at hok
    cases hbl : basesLoop n ob (d.inherit.toParents ++ ["base"])
        [Base.decl d.id] reg with
    | error e =>
      rw [hbl] at hok
      exact Except.noConfusion hok
    | ok pr2 =>
      obtain ⟨bases, reg1⟩ := pr2
      rw [hbl] at hok
      dsimp only at hok
      injection hok with hok
      have hcc : ({ name := n, bases := bases, children := ch } : CompClass)
          = cc := congrArg Prod.fst hok
      have hlast : bases.getLast? = some (Base.comp "base") :=
        basesLoop_ok_last hn hbl
      have hbases : cc.bases = bases := by rw [← hcc]
      rw [hbases]
      refine ⟨hwb, ?_, hlast, mem_of_getLast?_eq hlast⟩
      intro hnil
      rw [hnil] at hlast
      exact Option.noConfusion hlast

def reg5 : BReg :=
  [("base", { name := "base", bases := [Base.decl 0], children := [] })]

def d5 : Decl := { id := 1, name := some "a", inherit := .nil }

def cc5 : CompClass :=
  { name := "a", bases := [Base.decl 1, Base.comp "base"], children := [] }

/-- The registry produced by composing `d5` on `reg5`: the `base` entry
gains `a` as a child and the new composed `a` is appended. -/
def reg5out : BReg :=
  [("base", { name := "base", bases := [Base.decl 0], children := ["a"] }),
   ("a", cc5)]

theorem claim_C5_witness :
    withBase "a" d5.inherit.toParents = d5.inherit.toParents ++ ["base"] ∧
    cc5.bases ≠ [] ∧ cc5.bases.getLast? = some (Base.comp "base") ∧
    Base.comp "base" ∈ cc5.bases :=
  claim_C5_universal_base reg5 d5 "a" rfl (by decide) cc5 reg5out rfl

/-! ## Claims C7 and C8 -/

theorem shorthandName_mem {parents : List String} {n : String}
    (h : shorthandName parents = some n) : n ∈ parents := by
  unfold shorthandName at h
  split at h
  · split at h
    · exact Option.noConfusion h
    · injection h with h
      rw [← h]
      exact List.mem_singleton.mpr rfl
  · exact Option.noConfusion h

/-- C7: a declaration whose resolved name is new (not an extend-in-place
of one of its own parents) but already present in the registry makes the
build raise `DuplicateComponentError`; a fresh top-level name never
silently replaces an existing composed type. -/
theorem claim_C7_duplicate_name (reg : BReg) (d : Decl) (n : String)
    (hres : resolvedName d = some n)
    (hnew : n ∉ d.inherit.toParents)
    (hpresent : reg.containsName n = true) :
    buildComponent reg d = .error (.duplicate n) := by
  have hname : d.name = some n := by
    unfold resolvedName at hres
    cases hd : d.name with
    | some s =>
      rw [hd] at hres
      dsimp only at hres
      by_cases hs : s = ""
      · rw [if_pos hs] at hres
        exact absurd (shorthandName_mem hres) hnew
      · rw [if_neg hs] at hres
        injection hres with hres
        rw [hres]
    | none =>
      rw [hd] at hres
      dsimp only at hres
      exact absurd (shorthandName_mem hres) hnew
  have hdc : dupCheck reg d = true := by
    unfold dupCheck
    rw [hname]
    exact hpresent
  unfold buildComponent
  rw [hdc, hname]
  rfl

def reg7 : BReg := [("a", { name := "a", bases := [], children := [] })]

def d7 : Decl := { id := 1, name := some "a", inherit := .nil }

theorem claim_C7_witness :
    buildComponent reg7 d7 = .error (.duplicate "a") :=
  claim_C7_duplicate_name reg7 d7 "a" rfl (by simp [d7, StrOrList.toParents]) rfl

theorem createOrRetrieve_error {reg : BReg} {name : String}
    {parents : List String} {e : BuildErr}
    (h : createOrRetrieve reg name parents = .error e) :
    e = .unknownParentInPlace name := by
  unfold createOrRetrieve at h
  split at h
  · cases hg : reg.get? name with
    | none =>
      rw [hg] at h
      injection h with h
      exact h.symm
    | some cc =>
      rw [hg] at h
      exact Except.noConfusion h
  · exact Except.noConfusion h

theorem buildResolved_ne_missing (reg : BReg) (d : Decl) (n : String) :
    buildResolved reg d n ≠ .error .missingName := by
  intro hmiss
  unfold buildResolved at hmiss
  cases hco : createOrRetrieve reg n (withBase n d.inherit.toParents) with
  | error e =>
    rw [hco] at hmiss
    injection hmiss with hmiss
    have he := createOrRetrieve_error hco
    rw [hmiss] at he
    exact BuildErr.noConfusion he
  | ok pr =>
    obtain ⟨ob, ch⟩ := pr
    rw [hco] at hmiss
    dsimp only at hmiss
    unfold buildFinish at hmiss
    cases hbl : basesLoop n ob (withBase n d.inherit.toParents)
        [Base.decl d.id] reg with
    | error e =>
      rw [hbl] at hmiss
      injection hmiss with hmiss
      obtain ⟨p, hp⟩ := basesLoop_error_unknown hbl
      rw [hmiss] at hp
      exact BuildErr.noConfusion hp
    | ok pr2 =>
      obtain ⟨bases, reg1⟩ := pr2
      rw [hbl] at hmiss
      dsimp only at hmiss
      exact Except.noConfusion hmiss

/-- C8: under a passing duplicate check, the build raises
`MissingNameError` exactly when the declaration resolves no name; the
name resolves to the declaration's own (truthy) `_name` when present,
else to the single parent's name when there is exactly one parent (the
extend-in-place shorthand). -/
theorem claim_C8_name_resolution (reg : BReg) (d : Decl)
    (hdup : dupCheck reg d = false) :
    (buildComponent reg d = .error .missingName ↔ resolvedName d = none) ∧
    (∀ s, d.name = some s → s ≠ "" → resolvedName d = some s) ∧
    (d.name = none → ∀ p, d.inherit.toParents = [p] → p ≠ "" →
      resolvedName d = some p) := by
  refine ⟨⟨?_, ?_⟩, ?_, ?_⟩
  · intro h
    cases hres : resolvedName d with
    | none => rfl
    | some n =>
      rw [buildComponent_resolved hdup hres] at h
      exact absurd h (buildResolved_ne_missing reg d n)
  · intro hres
    unfold buildComponent
    rw [hdup, hres]
    rfl
  · intro s hs hne
    unfold resolvedName
    rw [hs]
    dsimp only
    rw [if_neg hne]
  · intro hnone p hp hne
    unfold resolvedName
    rw [hnone]
    dsimp only
    unfold shorthandName
    rw [hp]
    dsimp only
    rw [if_neg hne]

def d8 : Decl := { id := 0, name := none, inherit := .nil }

theorem claim_C8_witness :
    buildComponent [] d8 = .error .missingName ∧ resolvedName d8 = none :=
  ⟨(claim_C8_name_resolution [] d8 rfl).1.mpr rfl, rfl⟩

end ComponentCore
